import Mathlib

/-!
Verification development for the incentive-mechanism app cluster.

This file gives a shallow embedding of the two algorithmic modules of the
repository and proves the specification claims about them:

* `agatha/backend/incentive_mechanism/incentive.py`
  (`calculate_score`, `normalize_and_select`, `calculate_delivery_and_incentive`,
  `get_employee_incentive`), and
* `agatha/backend/study/vignette_generator.py`
  (`generate_vignette_id`, `parse_vignette_id`, `generate_vignette`,
  `generate_vignettes`).

Modelling conventions:

* Python `int` is modelled by `Int`; nullable columns by `Option`.
* Python exceptions are modelled by `Except PyError`; the constructor records
  which `raise` site fired.
* Python `float` arithmetic (only used for the min-max normalisation quotient
  in `normalize_and_select`) is modelled by exact rationals `ℚ`; the quotients
  appearing here are of moderate size, so exact arithmetic matches the
  intent of the code.
* Python `dict`s are modelled by insertion-ordered association lists whose
  keys are distinct; `defaultdict(Score)` access is modelled explicitly.
* The database access object is replaced by an explicit record of the values
  its query methods return for the relevant call.
-/

namespace Agatha

/-! ## Python string primitives

`int(str)` accepts an optionally signed digit string surrounded by
whitespace; `str.strip()` removes leading and trailing whitespace.  We model
the ASCII whitespace characters that Python treats as space.  (Unicode
digits/whitespace and underscore digit grouping are outside the inputs this
system sees and are not modelled.) -/

/-- The ASCII characters Python's `str.strip` / `int` treat as whitespace. -/
def pyIsSpace (c : Char) : Bool :=
  c = ' ' || c = '\t' || c = '\n' || c = '\r' || c = Char.ofNat 11 || c = Char.ofNat 12

/-- Accumulate a decimal digit list into a natural number. -/
def digitsToNat : List Char → Nat → Nat
  | [], acc => acc
  | c :: cs, acc => digitsToNat cs (acc * 10 + (c.toNat - '0'.toNat))

/-- Parse a nonempty all-digit character list, as the unsigned core of
Python `int(str)`. -/
def parseDigits (cs : List Char) : Option Nat :=
  if cs ≠ [] ∧ cs.all Char.isDigit then some (digitsToNat cs 0) else none

/-- Python `str.strip()` on a character list. -/
def pyStripChars (cs : List Char) : List Char :=
  ((cs.dropWhile pyIsSpace).reverse.dropWhile pyIsSpace).reverse

/-- Python `int(s)`: `some n` when the string parses as an integer,
`none` when `int` raises `ValueError`. -/
def pyInt? (s : String) : Option Int :=
  match pyStripChars s.data with
  | '-' :: rest => (parseDigits rest).map (fun n => -(n : Int))
  | '+' :: rest => (parseDigits rest).map (fun n => (n : Int))
  | rest => (parseDigits rest).map (fun n => (n : Int))

/-! ## Data model (`agatha/backend/data_persistence/models.py`)

Only the fields the two algorithms read are carried.  Nullable columns and
nullable relationship endpoints are `Option`-valued exactly where the code
guards against `None`. -/

/-- `models.AnswerType`: the two scoring endpoints (nullable columns). -/
structure AnswerType where
  id : Int
  most_negative : Option Int
  most_positive : Option Int
deriving DecidableEq

/-- `models.Factor`: routing of a question to a delivery model or an
incentive type (the schema constrains exactly one to be set, but the
in-memory object can hold any combination). -/
structure Factor where
  d_id : Option Int
  i_id : Option Int
deriving DecidableEq

/-- `models.Question`: weight, answer type and factor of a survey question. -/
structure Question where
  weight : Option Int
  factor : Factor
  answer_type : AnswerType
deriving DecidableEq

/-- `models.QuestionAnswer`: one respondent's raw answer to a question. -/
structure QuestionAnswer where
  answer : Option String
  question : Question
deriving DecidableEq

/-- The dataclass `Score`: running weighted sum and accumulated bounds. -/
structure Score where
  weighted_sum : Int
  minimum : Int
  maximum : Int
deriving DecidableEq

/-- The `raise` sites of `incentive.py`, by the names the specification
gives them.  `configurationError` is the `ValueError("Broken answer type")`
raised for undefined bounds, `malformedAnswerError` the re-raised
`ValueError` from `int(answer)`, and `unboundLocalError` the
`UnboundLocalError` Python raises when `score_record` is read before any
loop iteration has bound it. -/
inductive PyError
  | configurationError
  | malformedAnswerError
  | unboundLocalError
deriving DecidableEq

/-! ## `calculate_score` (incentive.py lines 31-62) -/

/-- Embedding of `calculate_score`: convert a raw answer to
`(score, possible min, possible max)` or raise. -/
def calculate_score (answer_type : AnswerType) (answer : String) :
    Except PyError (Int × Int × Int) :=
  match answer_type.most_negative, answer_type.most_positive with
  | some neg, some pos =>
    let min_score := min neg pos
    let max_score := max neg pos
    match pyInt? answer with
    | some trivial_answer =>
      .ok (|trivial_answer - neg| + min_score, min_score, max_score)
    | none =>
      if neg = 0 ∧ pos = 0 then .ok (0, 0, 0)
      else .error .malformedAnswerError
  | _, _ => .error .configurationError

/-! ## `normalize_and_select` (incentive.py lines 65-83) -/

/-- One iteration of the selection loop of `normalize_and_select`. -/
def selectStep (selected : Int × ℚ) (entry : Int × Score) : Int × ℚ :=
  let score := entry.2
  let score_range : Int := score.maximum - score.minimum
  let normalized : ℚ :=
    if score_range > 0 then
      ((score.weighted_sum - score.minimum : Int) : ℚ) / ((score_range : Int) : ℚ)
    else 0
  if normalized > selected.2 then (entry.1, normalized) else selected

/-- Embedding of `normalize_and_select`: min-max normalise each entry of the
(insertion-ordered) score dict and return the key of the highest score,
starting from the sentinel `(0, -1)`. -/
def normalize_and_select (score_dict : List (Int × Score)) : Int :=
  (score_dict.foldl selectStep (0, -1)).1

/-- The normalised value the loop body of `normalize_and_select` computes
for one `Score`, as described by the specification. -/
def normalizedScore (score : Score) : ℚ :=
  if score.maximum - score.minimum > 0 then
    ((score.weighted_sum - score.minimum : Int) : ℚ) /
      ((score.maximum - score.minimum : Int) : ℚ)
  else 0

/-! ## `calculate_delivery_and_incentive` (incentive.py lines 86-128)

The Python loop keeps a variable `score_record` that is rebound only when a
factor id is present; the mutation through it hits whichever dict entry the
variable currently refers to.  The state therefore carries the two
insertion-ordered dicts plus the current binding of `score_record`, given as
the map it points into (`true` = delivery) and the key. -/

/-- A Python `dict`/`defaultdict` keyed by `Int` with `Score` values,
modelled as an insertion-ordered association list with distinct keys. -/
abbrev ScoreDict := List (Int × Score)

/-- `defaultdict(Score)` subscript access: ensure the key is present,
inserting a default-constructed `Score()` at the end if it is new. -/
def dictGetDefault (d : ScoreDict) (k : Int) : ScoreDict :=
  if d.any (fun p => p.1 = k) then d else d ++ [(k, ⟨0, 0, 0⟩)]

/-- Mutate the record stored under key `k` in place. -/
def dictUpdate (d : ScoreDict) (k : Int) (f : Score → Score) : ScoreDict :=
  d.map (fun p => if p.1 = k then (p.1, f p.2) else p)

/-- The loop state of `calculate_delivery_and_incentive`. -/
structure AggState where
  delivery_scores : ScoreDict
  incentive_scores : ScoreDict
  score_record : Option (Bool × Int)
deriving DecidableEq

/-- One iteration of the aggregation loop of
`calculate_delivery_and_incentive` over a single answer. -/
def processAnswer (st : AggState) (answer : QuestionAnswer) : Except PyError AggState :=
  let question := answer.question
  match answer.answer, question.weight with
  | some ans, some weight =>
    match calculate_score question.answer_type ans with
    | .error e => .error e
    | .ok (score, min_value, max_value) =>
      let st1 :=
        match question.factor.d_id with
        | some d_id =>
          { st with delivery_scores := dictGetDefault st.delivery_scores d_id,
                    score_record := some (true, d_id) }
        | none => st
      let st2 :=
        match question.factor.i_id with
        | some i_id =>
          { st1 with incentive_scores := dictGetDefault st1.incentive_scores i_id,
                     score_record := some (false, i_id) }
        | none => st1
      match st2.score_record with
      | none => .error .unboundLocalError
      | some (isDelivery, key) =>
        let add := fun s : Score =>
          { weighted_sum := s.weighted_sum + weight * score,
            minimum := s.minimum + weight * min_value,
            maximum := s.maximum + weight * max_value }
        if isDelivery then
          .ok { st2 with delivery_scores := dictUpdate st2.delivery_scores key add }
        else
          .ok { st2 with incentive_scores := dictUpdate st2.incentive_scores key add }
  | _, _ => .ok st

/-- The aggregation loop of `calculate_delivery_and_incentive` (lines
100-115): fold `processAnswer` from empty dicts and unbound `score_record`. -/
def aggregate_scores (answers : List QuestionAnswer) : Except PyError AggState :=
  answers.foldlM processAnswer ⟨[], [], none⟩

/-- Embedding of `calculate_delivery_and_incentive`: aggregate, fail with
`none` when either dict is empty, otherwise select in both groups. -/
def calculate_delivery_and_incentive (answers : List QuestionAnswer) :
    Except PyError (Option (Int × Int)) :=
  match aggregate_scores answers with
  | .error e => .error e
  | .ok st =>
    if st.delivery_scores.length = 0 ∨ st.incentive_scores.length = 0 then
      .ok none
    else
      .ok (some (normalize_and_select st.delivery_scores,
                 normalize_and_select st.incentive_scores))

/-! ## `get_employee_incentive` (incentive.py lines 131-161) -/

/-- `models.EmployeeModel`: the persisted configuration of one employee. -/
structure EmployeeModel where
  revolori_id : String
  d_id : Int
  i_id : Int
deriving DecidableEq

/-- The answers the data-access object returns for the relevant queries of
`get_employee_incentive`: the already-stored model (if any) and the
answered questions of the respondent. -/
structure Database where
  employee_model : Option EmployeeModel
  answered_questions : List QuestionAnswer

/-- Embedding of `get_employee_incentive`.  The second component of the
result records whether `create_employee_model_by_ids` was called, i.e.
whether a configuration was persisted. -/
def get_employee_incentive (database : Database) (revolori_id : String) :
    Except PyError (Option EmployeeModel × Bool) :=
  match database.employee_model with
  | some employee_model => .ok (some employee_model, false)
  | none =>
    if database.answered_questions.length = 0 then .ok (none, false)
    else
      match calculate_delivery_and_incentive database.answered_questions with
      | .error e => .error e
      | .ok none => .ok (none, false)
      | .ok (some configuration) =>
        .ok (some ⟨revolori_id, configuration.1, configuration.2⟩, true)

/-- The three `+=` mutations of the aggregation loop applied to one record:
add `weight * score`, `weight * min_value`, `weight * max_value`. -/
def addContribution (w score min_value max_value : Int) (r : Score) : Score :=
  ⟨r.weighted_sum + w * score, r.minimum + w * min_value, r.maximum + w * max_value⟩

/-! ## Vignette identifiers (`agatha/backend/study/vignette_generator.py`)

`generate_vignette_id` serialises `{"study_id": ..., "factor_levels": {...}}`
with `json.dumps` after sorting the factor-level items, and
`parse_vignette_id` deserialises with `json.loads`.  On dictionaries of this
shape `json.dumps` is injective and `json.loads` is its left inverse, so the
identifier string is modelled by the value it serialises: the study id
together with the key-sorted association list of factor levels.  Equality of
these values is equality of the serialised byte strings. -/

/-- The comparison `sorted(factor_levels.items())` effectively uses: Python
compares the item tuples, and since dict keys are distinct only the key
strings are ever compared, lexicographically by code point.  We compare the
keys' character lists. -/
def keyLE (p q : String × Option String) : Prop := p.1.data ≤ q.1.data

instance : DecidableRel keyLE :=
  fun p q => inferInstanceAs (Decidable (p.1.data ≤ q.1.data))

instance : IsTotal (String × Option String) keyLE :=
  ⟨fun p q => le_total p.1.data q.1.data⟩

instance : IsTrans (String × Option String) keyLE :=
  ⟨fun _ _ _ h1 h2 => le_trans h1 h2⟩

/-- `dict(sorted(factor_levels.items()))` for distinct keys: stable
insertion sort by factor name. -/
def sortByKey (l : List (String × Option String)) : List (String × Option String) :=
  List.insertionSort keyLE l

/-- The JSON value a vignette id serialises: the study id and the key-sorted
factor levels. -/
structure VignetteIdJson where
  study_id : Int
  factor_levels : List (String × Option String)
deriving DecidableEq

/-- The dataclass `Vignette`. -/
structure Vignette where
  study_id : Int
  vignette_id : VignetteIdJson
  factor_levels : List (String × Option String)
deriving DecidableEq

/-- Embedding of `generate_vignette_id` (lines 26-54): sort the factor
levels by factor name and serialise them with the study id. -/
def generate_vignette_id (study_id : Int)
    (factor_levels : List (String × Option String)) : VignetteIdJson :=
  ⟨study_id, sortByKey factor_levels⟩

/-- Embedding of `parse_vignette_id` (lines 57-67): deserialise the id and
rebuild the `Vignette` dataclass from its fields. -/
def parse_vignette_id (vignette_id : VignetteIdJson) : Vignette :=
  ⟨vignette_id.study_id, vignette_id, vignette_id.factor_levels⟩

/-! ## Vignette rendering (`generate_vignette`, lines 70-107) -/

/-- One segment of a `string.Template`: literal text or a `$name`
placeholder. -/
inductive TemplateSeg
  | lit (s : List Char)
  | var (name : String)
deriving DecidableEq

/-- A `string.Template`, already split into segments. -/
abbrev PyTemplate := List TemplateSeg

/-- The factor table `database.get_factors` returns: factor name to level
key to level text. -/
abbrev FactorTable := List (String × List (String × String))

/-- Association-list lookup, as Python `d[k]`; `none` models `KeyError`. -/
def lookupKV {α : Type} (l : List (String × α)) (k : String) : Option α :=
  match l with
  | [] => none
  | p :: t => if p.1 = k then some p.2 else lookupKV t k

/-- `Template.substitute(**vars)`: replace every placeholder by its
variable; `none` models the `KeyError` for a missing placeholder. -/
def substitute (t : PyTemplate) (vars : List (String × List Char)) :
    Option (List Char) :=
  match t with
  | [] => some []
  | .lit s :: rest => (substitute rest vars).map (fun r => s ++ r)
  | .var name :: rest =>
    match lookupKV vars name with
    | none => none
    | some v => (substitute rest vars).map (fun r => v ++ r)

/-- Worker for `re.sub(" +", " ", s)`: the flag records whether we are in the
middle of a space run whose single replacement space was already emitted. -/
def collapseSpacesAux : Bool → List Char → List Char
  | _, [] => []
  | inRun, c :: t =>
    if c = ' ' then
      if inRun then collapseSpacesAux true t
      else ' ' :: collapseSpacesAux true t
    else c :: collapseSpacesAux false t

/-- `re.sub(" +", " ", s)`: collapse every maximal run of space characters
into a single space. -/
def collapseSpaces (l : List Char) : List Char := collapseSpacesAux false l

/-- `check_empty_key` inside `generate_vignette`: `None` and `"None"` give
the empty fragment, anything else is looked up in the factor table
(`none` models the `KeyError` for a missing factor or level). -/
def check_empty_key (factors : FactorTable) (factor : String)
    (key : Option String) : Option (List Char) :=
  match key with
  | none => some []
  | some k =>
    if k = "None" then some []
    else
      match lookupKV factors factor with
      | none => none
      | some levels => (lookupKV levels k).map String.data

/-- The `vars` dict comprehension of `generate_vignette`; `none` when
any fragment lookup raises. -/
def buildVariables (factors : FactorTable)
    (factor_levels : List (String × Option String)) :
    Option (List (String × List Char)) :=
  match factor_levels with
  | [] => some []
  | (factor, key) :: rest =>
    match check_empty_key factors factor key with
    | none => none
    | some v => (buildVariables factors rest).map (fun r => (factor, v) :: r)

/-- Embedding of `generate_vignette`: build the per-factor fragments, fetch
the template (a missing or empty — falsy — template string yields `""`),
substitute, strip, and collapse interior space runs.  The collaborator
`database.get_vignette_template_by_id` is passed in as a function of the
study id; `none` results model a raised `KeyError`. -/
def generate_vignette (get_vignette_template_by_id : Int → Option PyTemplate)
    (vignette : Vignette) (factors : FactorTable) : Option String :=
  match buildVariables factors vignette.factor_levels with
  | none => none
  | some vars =>
    match get_vignette_template_by_id vignette.study_id with
    | none => some ""
    | some vignette_template =>
      match substitute vignette_template vars with
      | none => none
      | some vignette_text =>
        some (String.mk (collapseSpaces (pyStripChars vignette_text)))

/-! ## Vignette enumeration (`generate_vignettes`, lines 110-171) -/

/-- `itertools.product` over a list of candidate lists. -/
def pyProduct {α : Type} : List (List α) → List (List α)
  | [] => [[]]
  | xs :: rest => xs.flatMap (fun x => (pyProduct rest).map (fun combo => x :: combo))

/-- Python dict assignment `d[k] = v`: overwrite in place when the key is
present, append otherwise. -/
def pyDictInsert {α β : Type} [DecidableEq α] (d : List (α × β)) (k : α) (v : β) :
    List (α × β) :=
  if d.any (fun p => p.1 = k) then d.map (fun p => if p.1 = k then (k, v) else p)
  else d ++ [(k, v)]

/-- Build a Python dict from key-value pairs in order (the dict
comprehension of `generate_vignettes`). -/
def pyDictOfList {α β : Type} [DecidableEq α] (l : List (α × β)) : List (α × β) :=
  l.foldl (fun d p => pyDictInsert d p.1 p.2) []

/-- The `vignette_data` list of `generate_vignettes` before shuffling: for
every combination of levels of the non-preset factors, the vignette with the
preset factors as given, preceded — when at least one preset factor carries
a concrete value — by the paired vignette with every preset factor blanked. -/
def vignetteEntries (study_id : Int) (factors : FactorTable)
    (preset_factors : List (String × Option String)) : List Vignette :=
  let remaining := factors.filter (fun p => ! preset_factors.any (fun q => q.1 = p.1))
  let remaining_factor_levels : List (List (String × String)) :=
    remaining.map (fun p => p.2.map (fun lv => (p.1, lv.1)))
  let variable_combinations := pyProduct remaining_factor_levels
  let exists_preset_value := preset_factors.any (fun p => p.2.isSome)
  variable_combinations.flatMap (fun variable_items =>
    let vars : List (String × Option String) :=
      variable_items.map (fun q => (q.1, some q.2))
    let preset_factors_empty : List (String × Option String) :=
      preset_factors.map (fun p => (p.1, none))
    let mk := fun (fl : List (String × Option String)) =>
      Vignette.mk study_id (generate_vignette_id study_id fl) fl
    (if exists_preset_value then [mk (vars ++ preset_factors_empty)] else [])
      ++ [mk (vars ++ preset_factors)])

/-- The `variables` part of a generated assignment: each chosen level as a
concrete value. -/
def varsOf (c : List (String × String)) : List (String × Option String) :=
  c.map (fun q => (q.1, some q.2))

/-- The `preset_factors_empty` dict: every preset factor blanked. -/
def blankOf (presets : List (String × Option String)) : List (String × Option String) :=
  presets.map (fun p => (p.1, none))

/-- The rendering part of the final dict comprehension of
`generate_vignettes`: produce each `(vignette_id, text)` pair in order;
`none` models an exception raised while rendering. -/
def renderAll (get_vignette_template_by_id : Int → Option PyTemplate)
    (factors : FactorTable) : List Vignette → Option (List (VignetteIdJson × String))
  | [] => some []
  | v :: t =>
    match generate_vignette get_vignette_template_by_id v factors with
    | none => none
    | some text =>
      (renderAll get_vignette_template_by_id factors t).map
        (fun r => (v.vignette_id, text) :: r)

/-- Embedding of `generate_vignettes`: build `vignette_data`, shuffle it,
render each vignette and collect the id-keyed dict.  The non-deterministic
`random.shuffle` is abstracted as the function argument `shuffle`; theorems
assume it permutes its input. -/
def generate_vignettes (get_vignette_template_by_id : Int → Option PyTemplate)
    (study_id : Int) (factors : FactorTable)
    (preset_factors : List (String × Option String))
    (shuffle : List Vignette → List Vignette) :
    Option (List (VignetteIdJson × String)) :=
  let vignette_data := vignetteEntries study_id factors preset_factors
  (renderAll get_vignette_template_by_id factors (shuffle vignette_data)).map pyDictOfList

/-! ### Concrete inputs used by counterexamples and witnesses -/

/-- A factor table with one two-level factor and two one-level factors. -/
def cexFactors : FactorTable :=
  [("f", [("a", "ta"), ("b", "tb")]), ("p", [("x", "tx")]), ("q", [("y", "ty")])]

/-- Two preset factors, both with concrete values. -/
def cexPresets : List (String × Option String) := [("p", some "x"), ("q", some "y")]

/-- A factor table with one two-level factor and one one-level factor. -/
def witFactors : FactorTable := [("f", [("a", "ta"), ("b", "tb")]), ("p", [("x", "tx")])]

/-- A single preset factor with a concrete value. -/
def witPresets : List (String × Option String) := [("p", some "x")]

/-- A 1-to-5 forward answer type. -/
def likert5 : AnswerType := ⟨3, some 1, some 5⟩

/-- An answer routed to delivery model 1 (weight 1, answer "3"). -/
def routedAnswer : QuestionAnswer := ⟨some "3", ⟨some 1, ⟨some 1, none⟩, likert5⟩⟩

/-- An answer whose factor has neither a delivery-model id nor an
incentive-type id (weight 2, answer "4"). -/
def unroutedAnswer : QuestionAnswer := ⟨some "4", ⟨some 2, ⟨none, none⟩, likert5⟩⟩

end Agatha

namespace Agatha

/-! ## Theorems -/

/-! ### `calculate_score` -/

/-- **C5.** For every answer type with both endpoints defined and every
answer string parsing as the integer `a`, `calculate_score` returns exactly
`(|a − most_negative| + min_score, min_score, max_score)`; in particular the
two worked examples of the specification hold. -/
theorem calculate_score_formula :
    (∀ (i neg pos a : Int) (s : String), pyInt? s = some a →
      calculate_score ⟨i, some neg, some pos⟩ s =
        .ok (|a - neg| + min neg pos, min neg pos, max neg pos))
    ∧ calculate_score ⟨1, some 1, some 7⟩ "5" = .ok (5, 1, 7)
    ∧ calculate_score ⟨2, some 5, some 1⟩ "2" = .ok (4, 1, 5) := by
  refine ⟨?_, rfl, rfl⟩
  intro i neg pos a s hp
  simp [calculate_score, hp]

/-- Witness for `calculate_score_formula` at a concrete input. -/
theorem calculate_score_formula_witness :
    calculate_score ⟨1, some 1, some 7⟩ "5" =
      .ok (|(5 : Int) - 1| + min 1 7, min 1 7, max 1 7) :=
  calculate_score_formula.1 1 1 7 5 "5" rfl

/-- **C2 (counterexample).** The integer answer `100` on the 1-to-7 scale
yields score 100, which exceeds `max(most_negative, most_positive) = 7`:
the claimed bound fails for integer answers outside the scale. -/
theorem calculate_score_out_of_range_cex :
    pyInt? "100" = some 100
    ∧ calculate_score ⟨1, some 1, some 7⟩ "100" = .ok (100, 1, 7)
    ∧ ¬ ((100 : Int) ≤ max 1 7) :=
  ⟨rfl, rfl, by decide⟩

/-- **C2 (amended).** For every answer type with distinct defined endpoints
and every answer string parsing as an integer `a` that lies between
`min(most_negative, most_positive)` and `max(most_negative, most_positive)`,
the first component of the result of `calculate_score` lies between that
minimum and maximum. -/
theorem calculate_score_result_in_range (i neg pos a : Int) (s : String)
    (hparse : pyInt? s = some a) (hne : neg ≠ pos)
    (hlo : min neg pos ≤ a) (hhi : a ≤ max neg pos) :
    ∃ r : Int × Int × Int, calculate_score ⟨i, some neg, some pos⟩ s = .ok r
      ∧ min neg pos ≤ r.1 ∧ r.1 ≤ max neg pos := by
  refine ⟨(|a - neg| + min neg pos, min neg pos, max neg pos),
    by simp [calculate_score, hparse], ?_, ?_⟩
  · have h0 : (0 : Int) ≤ |a - neg| := abs_nonneg _
    simp only
    linarith
  · have habs : |a - neg| ≤ max neg pos - min neg pos := by
      rcases le_total neg pos with h | h
      · rw [min_eq_left h] at hlo
        rw [max_eq_right h] at hhi
        rw [min_eq_left h, max_eq_right h, abs_of_nonneg (by linarith)]
        linarith
      · rw [min_eq_right h] at hlo
        rw [max_eq_left h] at hhi
        rw [min_eq_right h, max_eq_left h, abs_of_nonpos (by linarith)]
        linarith
    simp only
    linarith

/-- Witness for `calculate_score_result_in_range` at a concrete input. -/
theorem calculate_score_result_in_range_witness :
    ∃ r : Int × Int × Int, calculate_score ⟨1, some 1, some 7⟩ "5" = .ok r
      ∧ min 1 7 ≤ r.1 ∧ r.1 ≤ max 1 7 :=
  calculate_score_result_in_range 1 1 7 5 "5" rfl (by decide) (by decide) (by decide)

/-- **C8 (counterexample).** `calculate_score` already raises the
configuration error when only one endpoint is missing, so "exactly when both
bounds are missing" is false: here `most_positive` is defined. -/
theorem calculate_score_one_bound_missing_cex :
    calculate_score ⟨9, none, some 5⟩ "3" = .error .configurationError
    ∧ ¬ ((AnswerType.mk 9 none (some 5)).most_negative = none
         ∧ (AnswerType.mk 9 none (some 5)).most_positive = none) :=
  ⟨rfl, by decide⟩

/-- **C8 (amended).** `calculate_score` raises the configuration error
exactly when at least one of the two endpoints is missing; given both
endpoints and a non-integer answer it returns `(0, 0, 0)` when both
endpoints are `0` (free-text marker) and raises the malformed-answer error
in every other non-integer case. -/
theorem calculate_score_error_cases (answer_type : AnswerType) (s : String) :
    (calculate_score answer_type s = .error .configurationError ↔
      answer_type.most_negative = none ∨ answer_type.most_positive = none)
    ∧ (∀ neg pos : Int, answer_type.most_negative = some neg →
        answer_type.most_positive = some pos → pyInt? s = none →
        ((neg = 0 ∧ pos = 0) → calculate_score answer_type s = .ok (0, 0, 0))
        ∧ (¬ (neg = 0 ∧ pos = 0) →
            calculate_score answer_type s = .error .malformedAnswerError)) := by
  obtain ⟨i, mneg, mpos⟩ := answer_type
  constructor
  · cases mneg with
    | none => simp [calculate_score]
    | some neg =>
      cases mpos with
      | none => simp [calculate_score]
      | some pos =>
        simp only [calculate_score]
        cases hp : pyInt? s with
        | some a => simp
        | none =>
          by_cases hz : neg = 0 ∧ pos = 0
          · simp [hz]
          · simp [hz]
  · intro neg pos hn hp hparse
    simp only at hn hp
    subst hn
    subst hp
    constructor
    · intro hz
      simp [calculate_score, hparse, hz]
    · intro hz
      simp [calculate_score, hparse, hz]

/-- Witness for `calculate_score_error_cases` at a concrete input. -/
theorem calculate_score_error_cases_witness :
    calculate_score ⟨0, some 1, some 2⟩ "z" = .error .malformedAnswerError :=
  ((calculate_score_error_cases ⟨0, some 1, some 2⟩ "z").2 1 2 rfl rfl rfl).2 (by decide)

/-! ### `normalize_and_select` -/

/-- The loop body of `normalize_and_select` in terms of `normalizedScore`. -/
theorem selectStep_eq (acc : Int × ℚ) (e : Int × Score) :
    selectStep acc e =
      if acc.2 < normalizedScore e.2 then (e.1, normalizedScore e.2) else acc := rfl

/-- Characterisation of the selection fold: starting from `acc`, either no
entry strictly beats `acc`'s value and the fold returns `acc`, or the fold
returns the first entry attaining the maximum normalised value (which then
strictly exceeds `acc`'s value). -/
theorem foldl_selectStep_char (l : List (Int × Score)) (acc : Int × ℚ) :
    (l.foldl selectStep acc = acc ∧ ∀ e ∈ l, normalizedScore e.2 ≤ acc.2)
    ∨ (∃ pre e post, l = pre ++ e :: post
        ∧ l.foldl selectStep acc = (e.1, normalizedScore e.2)
        ∧ acc.2 < normalizedScore e.2
        ∧ (∀ q ∈ pre, normalizedScore q.2 < normalizedScore e.2)
        ∧ (∀ q ∈ post, normalizedScore q.2 ≤ normalizedScore e.2)) := by
  induction l generalizing acc with
  | nil => exact Or.inl ⟨rfl, by simp⟩
  | cons x t ih =>
    rw [List.foldl_cons, selectStep_eq]
    by_cases h : acc.2 < normalizedScore x.2
    · rw [if_pos h]
      rcases ih (x.1, normalizedScore x.2) with ⟨heq, hall⟩ |
        ⟨pre, e, post, hdec, hres, hgt, hpre, hpost⟩
      · exact Or.inr ⟨[], x, t, rfl, heq, h, by simp, fun q hq => hall q hq⟩
      · refine Or.inr ⟨x :: pre, e, post, by rw [hdec]; rfl, hres, lt_trans h hgt, ?_, hpost⟩
        intro q hq
        rcases List.mem_cons.mp hq with rfl | hq2
        · exact hgt
        · exact hpre q hq2
    · rw [if_neg h]
      rcases ih acc with ⟨heq, hall⟩ | ⟨pre, e, post, hdec, hres, hgt, hpre, hpost⟩
      · refine Or.inl ⟨heq, ?_⟩
        intro q hq
        rcases List.mem_cons.mp hq with rfl | hq2
        · exact not_lt.mp h
        · exact hall q hq2
      · refine Or.inr ⟨x :: pre, e, post, by rw [hdec]; rfl, hres, hgt, ?_, hpost⟩
        intro q hq
        rcases List.mem_cons.mp hq with rfl | hq2
        · exact lt_of_le_of_lt (not_lt.mp h) hgt
        · exact hpre q hq2

/-- **C6 (counterexample).** On `{1 ↦ Score(-100, 0, 10)}` the (unique, hence
largest-scoring) option is `1`, but its normalised value `-10` never beats
the sentinel's initial value `-1`, so `normalize_and_select` returns `0`
instead of the argmax key `1`. -/
theorem normalize_and_select_sentinel_cex :
    normalize_and_select [(1, ⟨-100, 0, 10⟩)] = 0
    ∧ normalize_and_select [(1, ⟨-100, 0, 10⟩)] ≠ 1 := by
  have h : normalize_and_select [(1, ⟨-100, 0, 10⟩)] = 0 := by
    simp [normalize_and_select, selectStep]
    norm_num
  exact ⟨h, by rw [h]; decide⟩

/-- **C6 (amended).** `normalize_and_select` returns `0` on the empty map;
on any map containing an option whose normalised value
`(weighted_sum − minimum)/(maximum − minimum) if maximum > minimum else 0`
exceeds the sentinel's initial value `−1` (in particular whenever some
normalised value is nonnegative) it returns the first-seen option with the
strictly largest normalised value; and on
`{1 ↦ (50, 10, 60), 2 ↦ (60, 50, 120)}` it returns `1`. -/
theorem normalize_and_select_first_max :
    normalize_and_select [] = 0
    ∧ (∀ l : List (Int × Score), (∃ e ∈ l, (-1 : ℚ) < normalizedScore e.2) →
        ∃ pre e post, l = pre ++ e :: post
          ∧ normalize_and_select l = e.1
          ∧ (∀ q ∈ l, normalizedScore q.2 ≤ normalizedScore e.2)
          ∧ ∀ q ∈ pre, normalizedScore q.2 < normalizedScore e.2)
    ∧ normalize_and_select [(1, ⟨50, 10, 60⟩), (2, ⟨60, 50, 120⟩)] = 1 := by
  refine ⟨rfl, ?_, ?_⟩
  · intro l hex
    rcases foldl_selectStep_char l (0, -1) with ⟨_, hall⟩ |
      ⟨pre, e, post, hdec, hres, _, hpre, hpost⟩
    · rcases hex with ⟨e, he, hlt⟩
      exact absurd (hall e he) (not_le.mpr hlt)
    · refine ⟨pre, e, post, hdec, ?_, ?_, hpre⟩
      · unfold normalize_and_select
        rw [hres]
      · intro q hq
        rw [hdec] at hq
        rcases List.mem_append.mp hq with hq1 | hq2
        · exact le_of_lt (hpre q hq1)
        · rcases List.mem_cons.mp hq2 with rfl | hq3
          · exact le_refl _
          · exact hpost q hq3
  · simp [normalize_and_select, selectStep]
    norm_num

/-- Witness for `normalize_and_select_first_max` at a concrete input. -/
theorem normalize_and_select_first_max_witness :
    ∃ pre e post, [((5 : Int), Score.mk 0 0 0)] = pre ++ e :: post
      ∧ normalize_and_select [((5 : Int), Score.mk 0 0 0)] = e.1
      ∧ (∀ q ∈ [((5 : Int), Score.mk 0 0 0)],
          normalizedScore q.2 ≤ normalizedScore e.2)
      ∧ ∀ q ∈ pre, normalizedScore q.2 < normalizedScore e.2 :=
  normalize_and_select_first_max.2.1 [((5 : Int), Score.mk 0 0 0)]
    ⟨(5, ⟨0, 0, 0⟩), by simp, by norm_num [normalizedScore]⟩

/-- **C10 (counterexample).** `{7 ↦ Score(-100, 0, 10)}` is non-empty, yet
`normalize_and_select` returns the sentinel `0`, which is not a key of the
map: the normalised value `-10` never beats the initial `-1`. -/
theorem normalize_and_select_nonkey_cex :
    normalize_and_select [((7 : Int), Score.mk (-100) 0 10)] = 0
    ∧ (0 : Int) ∉ ([((7 : Int), Score.mk (-100) 0 10)].map Prod.fst) := by
  constructor
  · simp [normalize_and_select, selectStep]
    norm_num
  · decide

/-- **C10 (amended).** For every non-empty input map containing some option
whose normalised value exceeds `−1` (in particular whenever some normalised
value is nonnegative, e.g. an option with a degenerate range), the result of
`normalize_and_select` is a key of the map; and when every option's
normalised value is `0` the first-seen option id is returned. -/
theorem normalize_and_select_key_mem :
    (∀ l : List (Int × Score), (∃ e ∈ l, (-1 : ℚ) < normalizedScore e.2) →
        normalize_and_select l ∈ l.map Prod.fst)
    ∧ (∀ (x : Int × Score) (t : List (Int × Score)),
        (∀ q ∈ x :: t, normalizedScore q.2 = 0) →
        normalize_and_select (x :: t) = x.1) := by
  constructor
  · intro l hex
    rcases foldl_selectStep_char l (0, -1) with ⟨_, hall⟩ |
      ⟨pre, e, post, hdec, hres, _, _, _⟩
    · rcases hex with ⟨e, he, hlt⟩
      exact absurd (hall e he) (not_le.mpr hlt)
    · unfold normalize_and_select
      rw [hres, hdec]
      simp
  · intro x t hz
    rcases foldl_selectStep_char (x :: t) (0, -1) with ⟨_, hall⟩ |
      ⟨pre, e, post, hdec, hres, _, hpre, _⟩
    · have hx := hall x (by simp)
      rw [hz x (by simp)] at hx
      norm_num at hx
    · have he0 : normalizedScore e.2 = 0 := hz e (by rw [hdec]; simp)
      unfold normalize_and_select
      rw [hres]
      cases pre with
      | nil =>
        rw [List.nil_append] at hdec
        injection hdec with h1 h2
        show e.1 = x.1
        rw [h1]
      | cons p pre2 =>
        exfalso
        have hp : p ∈ x :: t := by rw [hdec]; simp
        have hlt := hpre p (by simp)
        rw [hz p hp, he0] at hlt
        exact lt_irrefl 0 hlt

/-- Witness for `normalize_and_select_key_mem` at a concrete input. -/
theorem normalize_and_select_key_mem_witness :
    normalize_and_select [((5 : Int), Score.mk 1 2 2)] ∈
      [((5 : Int), Score.mk 1 2 2)].map Prod.fst :=
  normalize_and_select_key_mem.1 [((5 : Int), Score.mk 1 2 2)]
    ⟨(5, ⟨1, 2, 2⟩), by simp, by norm_num [normalizedScore]⟩

/-! ### `calculate_delivery_and_incentive` -/

/-- The aggregation loop splits over list append. -/
theorem aggregate_scores_append (l₁ l₂ : List QuestionAnswer) :
    aggregate_scores (l₁ ++ l₂) =
      (aggregate_scores l₁).bind (fun st => l₂.foldlM processAnswer st) := by
  unfold aggregate_scores
  rw [List.foldlM_append]
  rfl

/-- **C3 (counterexample).** Appending an answer whose factor has neither id
(`unroutedAnswer`, weight 2, answer "4") after a delivery-routed answer does
change the delivery totals: the stale `score_record` binding funnels its
weighted contribution into the previous answer's accumulator entry, so the
totals are not the same as with that answer absent. -/
theorem aggregate_scores_unrouted_cex :
    aggregate_scores [routedAnswer, unroutedAnswer] =
      .ok ⟨[(1, ⟨11, 3, 15⟩)], [], some (true, 1)⟩
    ∧ aggregate_scores [routedAnswer] = .ok ⟨[(1, ⟨3, 1, 5⟩)], [], some (true, 1)⟩
    ∧ ([((1 : Int), Score.mk 11 3 15)] : ScoreDict) ≠ [(1, Score.mk 3 1 5)] :=
  ⟨rfl, rfl, by decide⟩

/-- **C3 (amended).** An answer with a present answer and weight whose
factor has neither id set is not excluded: because `score_record` is not
rebound, its weighted contribution is added to the accumulator entry bound
by the most recent routed answer; when no record has been bound yet the whole
computation fails with `UnboundLocalError`.  (The schema's check constraint
on `factor` makes such factors impossible for persisted data.) -/
theorem aggregate_scores_unrouted (base : List QuestionAnswer) (st : AggState)
    (a : QuestionAnswer) (s : String) (w score min_value max_value : Int)
    (hbase : aggregate_scores base = .ok st)
    (ha : a.answer = some s) (hw : a.question.weight = some w)
    (hd : a.question.factor.d_id = none) (hi : a.question.factor.i_id = none)
    (hs : calculate_score a.question.answer_type s = .ok (score, min_value, max_value)) :
    (st.score_record = none →
      aggregate_scores (base ++ [a]) = .error .unboundLocalError)
    ∧ (∀ (isDelivery : Bool) (key : Int),
        st.score_record = some (isDelivery, key) →
        aggregate_scores (base ++ [a]) = .ok (if isDelivery then
          { st with delivery_scores :=
              dictUpdate st.delivery_scores key (addContribution w score min_value max_value) }
        else
          { st with incentive_scores :=
              dictUpdate st.incentive_scores key (addContribution w score min_value max_value) })) := by
  have happ : aggregate_scores (base ++ [a]) = processAnswer st a := by
    rw [aggregate_scores_append, hbase]
    show (processAnswer st a).bind pure = processAnswer st a
    cases processAnswer st a <;> rfl
  have hstep : processAnswer st a =
      match st.score_record with
      | none => .error .unboundLocalError
      | some (isDelivery, key) =>
        if isDelivery then
          .ok { st with delivery_scores :=
              dictUpdate st.delivery_scores key (addContribution w score min_value max_value) }
        else
          .ok { st with incentive_scores :=
              dictUpdate st.incentive_scores key (addContribution w score min_value max_value) } := by
    simp only [processAnswer, ha, hw, hd, hi, hs]
    rfl
  constructor
  · intro hrec
    rw [happ, hstep, hrec]
  · intro isDelivery key hrec
    rw [happ, hstep, hrec]
    cases isDelivery <;> simp

/-- Witness for `aggregate_scores_unrouted` at a concrete input. -/
theorem aggregate_scores_unrouted_witness :
    aggregate_scores ([routedAnswer] ++ [unroutedAnswer]) = .ok (if true then
      { AggState.mk [(1, ⟨3, 1, 5⟩)] [] (some (true, 1)) with
          delivery_scores :=
            dictUpdate [(1, ⟨3, 1, 5⟩)] 1 (addContribution 2 4 1 5) }
    else
      { AggState.mk [(1, ⟨3, 1, 5⟩)] [] (some (true, 1)) with
          incentive_scores :=
            dictUpdate [] 1 (addContribution 2 4 1 5) }) :=
  (aggregate_scores_unrouted [routedAnswer] ⟨[(1, ⟨3, 1, 5⟩)], [], some (true, 1)⟩
    unroutedAnswer "4" 2 4 1 5 rfl rfl rfl rfl rfl rfl).2 true 1 rfl

/-- **C4.** When either accumulator ends up empty,
`calculate_delivery_and_incentive` returns the "cannot compute" outcome
(`none`, never a partial selection); and in that case `get_employee_incentive`
persists nothing and returns `None`. -/
theorem incomplete_config_propagates :
    (∀ (answers : List QuestionAnswer) (st : AggState),
        aggregate_scores answers = .ok st →
        st.delivery_scores = [] ∨ st.incentive_scores = [] →
        calculate_delivery_and_incentive answers = .ok none)
    ∧ (∀ (db : Database) (rid : String),
        db.employee_model = none →
        calculate_delivery_and_incentive db.answered_questions = .ok none →
        get_employee_incentive db rid = .ok (none, false)) := by
  constructor
  · intro answers st hagg hemp
    unfold calculate_delivery_and_incentive
    rw [hagg]
    have hlen : st.delivery_scores.length = 0 ∨ st.incentive_scores.length = 0 := by
      rcases hemp with h | h <;> simp [h]
    exact if_pos hlen
  · intro db rid hem hcalc
    obtain ⟨em, answers⟩ := db
    simp only at hem hcalc
    subst hem
    unfold get_employee_incentive
    by_cases hlen : answers.length = 0
    · simp only [hlen]
      rfl
    · simp only [if_neg hlen, hcalc]

/-! ### Vignette identifiers: sorting and lookup lemmas -/

/-- Strings with equal character data are equal. -/
theorem string_eq_of_data_eq {a b : String} (h : a.data = b.data) : a = b := by
  cases a
  cases b
  exact congrArg String.mk h

/-- `sortByKey` permutes its input. -/
theorem sortByKey_perm (l : List (String × Option String)) : (sortByKey l).Perm l :=
  List.perm_insertionSort keyLE l

/-- `sortByKey` sorts by key. -/
theorem sortByKey_sorted (l : List (String × Option String)) :
    List.Sorted keyLE (sortByKey l) :=
  List.sorted_insertionSort keyLE l

/-- A key-sorted list with distinct keys is strictly sorted on key data. -/
theorem sorted_strict_of_nodup_keys {l : List (String × Option String)}
    (hs : List.Sorted keyLE l) (hk : (l.map Prod.fst).Nodup) :
    List.Pairwise (fun p q : String × Option String => p.1.data < q.1.data) l := by
  have hne : List.Pairwise (fun p q : String × Option String => p.1 ≠ q.1) l :=
    List.pairwise_map.mp hk
  exact (hs.and hne).imp (fun h =>
    lt_of_le_of_ne h.1 (fun hdata => h.2 (string_eq_of_data_eq hdata)))

/-- Permuted factor-level lists with distinct keys sort to the same list:
the identifier is canonical. -/
theorem sortByKey_eq_of_perm {l₁ l₂ : List (String × Option String)}
    (hk : (l₁.map Prod.fst).Nodup) (hp : l₁.Perm l₂) :
    sortByKey l₁ = sortByKey l₂ := by
  have hk₂ : (l₂.map Prod.fst).Nodup := ((hp.map Prod.fst).nodup_iff).mp hk
  have hperm : (sortByKey l₁).Perm (sortByKey l₂) :=
    ((sortByKey_perm l₁).trans hp).trans (sortByKey_perm l₂).symm
  have h1 := sorted_strict_of_nodup_keys (sortByKey_sorted l₁)
    (((sortByKey_perm l₁).map Prod.fst).nodup_iff.mpr hk)
  have h2 := sorted_strict_of_nodup_keys (sortByKey_sorted l₂)
    (((sortByKey_perm l₂).map Prod.fst).nodup_iff.mpr hk₂)
  exact @List.eq_of_perm_of_sorted (String × Option String)
    (fun p q : String × Option String => p.1.data < q.1.data)
    ⟨fun _ _ ha hb => absurd hb (lt_asymm ha)⟩ _ _ hperm h1 h2

/-- A `lookupKV` hit is a member. -/
theorem lookupKV_mem {α : Type} {l : List (String × α)} {k : String} {v : α}
    (h : lookupKV l k = some v) : (k, v) ∈ l := by
  induction l with
  | nil => simp [lookupKV] at h
  | cons p t ih =>
    rw [lookupKV] at h
    by_cases hk : p.1 = k
    · rw [if_pos hk] at h
      cases p
      simp only at hk h
      have hv := Option.some.inj h
      subst hk
      subst hv
      exact List.mem_cons_self _ _
    · rw [if_neg hk] at h
      exact List.mem_cons_of_mem p (ih h)

/-- `lookupKV` misses exactly the absent keys. -/
theorem lookupKV_eq_none_iff {α : Type} {l : List (String × α)} {k : String} :
    lookupKV l k = none ↔ k ∉ l.map Prod.fst := by
  induction l with
  | nil => simp [lookupKV]
  | cons p t ih =>
    rw [lookupKV]
    by_cases hk : p.1 = k
    · simp [if_pos hk, hk]
    · simp [if_neg hk, ih, Ne.symm hk]

/-- With distinct keys, every member is found by `lookupKV`. -/
theorem mem_lookupKV {α : Type} {l : List (String × α)} {k : String} {v : α}
    (hk : (l.map Prod.fst).Nodup) (h : (k, v) ∈ l) : lookupKV l k = some v := by
  induction l with
  | nil => simp at h
  | cons p t ih =>
    rw [List.map_cons, List.nodup_cons] at hk
    rcases List.mem_cons.mp h with rfl | hmem
    · simp [lookupKV]
    · rw [lookupKV]
      have hne : p.1 ≠ k := by
        intro hcontra
        exact hk.1 (hcontra ▸ List.mem_map_of_mem Prod.fst hmem)
      rw [if_neg hne]
      exact ih hk.2 hmem

/-- With distinct keys, `lookupKV` is invariant under permutation. -/
theorem lookupKV_eq_of_perm {α : Type} {l₁ l₂ : List (String × α)}
    (hp : l₁.Perm l₂) (hk : (l₁.map Prod.fst).Nodup) (k : String) :
    lookupKV l₁ k = lookupKV l₂ k := by
  have hk₂ : (l₂.map Prod.fst).Nodup := ((hp.map Prod.fst).nodup_iff).mp hk
  cases h : lookupKV l₁ k with
  | some v => exact (mem_lookupKV hk₂ (hp.mem_iff.mp (lookupKV_mem h))).symm
  | none =>
    have : k ∉ l₂.map Prod.fst := fun hmem =>
      (lookupKV_eq_none_iff.mp h) ((hp.map Prod.fst).mem_iff.mpr hmem)
    exact (lookupKV_eq_none_iff.mpr this).symm

/-- Association lists with the same (distinct) key sequence and the same
lookups are equal. -/
theorem assoc_ext {α : Type} {l₁ l₂ : List (String × α)}
    (hkeys : l₁.map Prod.fst = l₂.map Prod.fst) (hk : (l₁.map Prod.fst).Nodup)
    (hl : ∀ k, lookupKV l₁ k = lookupKV l₂ k) : l₁ = l₂ := by
  induction l₁ generalizing l₂ with
  | nil =>
    cases l₂ with
    | nil => rfl
    | cons q t₂ => simp at hkeys
  | cons p t₁ ih =>
    cases l₂ with
    | nil => simp at hkeys
    | cons q t₂ =>
      rw [List.map_cons, List.map_cons] at hkeys
      injection hkeys with hpq htk
      rw [List.map_cons, List.nodup_cons] at hk
      have hv : p.2 = q.2 := by
        have hl1 := hl p.1
        rw [lookupKV, lookupKV, if_pos rfl, if_pos hpq.symm] at hl1
        exact Option.some.inj hl1
      have hrest : ∀ k, lookupKV t₁ k = lookupKV t₂ k := by
        intro k
        by_cases hkp : k = p.1
        · rw [hkp]
          have h₁ : lookupKV t₁ p.1 = none := lookupKV_eq_none_iff.mpr hk.1
          have h₂ : lookupKV t₂ p.1 = none :=
            lookupKV_eq_none_iff.mpr (fun hmem => hk.1 (htk ▸ hmem))
          rw [h₁, h₂]
        · have hlk := hl k
          rw [lookupKV, lookupKV, if_neg (fun h => hkp h.symm),
            if_neg (fun h => hkp (hpq.trans h).symm)] at hlk
          exact hlk
      have ht : t₁ = t₂ := ih htk hk.2 hrest
      cases p
      cases q
      simp only at hpq hv
      rw [hpq, hv, ht]

/-- **C7.** `generate_vignette_id` is canonical and invertible: permuting
the factor-level arguments (distinct factor names) yields the identical
serialised identifier, and `parse_vignette_id` of a generated identifier
recovers the study id, the identifier itself, and a factor-level mapping
that is a permutation of the original with identical lookups (Python dict
equality). -/
theorem vignette_id_canonical_roundtrip :
    (∀ (study_id : Int) (fl₁ fl₂ : List (String × Option String)),
        (fl₁.map Prod.fst).Nodup → fl₁.Perm fl₂ →
        generate_vignette_id study_id fl₁ = generate_vignette_id study_id fl₂)
    ∧ (∀ (study_id : Int) (fl : List (String × Option String)),
        (fl.map Prod.fst).Nodup →
        parse_vignette_id (generate_vignette_id study_id fl) =
          ⟨study_id, generate_vignette_id study_id fl, sortByKey fl⟩
        ∧ (sortByKey fl).Perm fl
        ∧ ∀ k, lookupKV (sortByKey fl) k = lookupKV fl k) := by
  constructor
  · intro study_id fl₁ fl₂ hk hp
    unfold generate_vignette_id
    rw [sortByKey_eq_of_perm hk hp]
  · intro study_id fl hk
    refine ⟨rfl, sortByKey_perm fl, ?_⟩
    intro k
    exact lookupKV_eq_of_perm (sortByKey_perm fl)
      (((sortByKey_perm fl).map Prod.fst).nodup_iff.mpr hk) k

/-- Witness for `vignette_id_canonical_roundtrip` at a concrete input. -/
theorem vignette_id_canonical_roundtrip_witness :
    generate_vignette_id 1 [("b", some "2"), ("a", none)] =
      generate_vignette_id 1 [("a", none), ("b", some "2")]
    ∧ parse_vignette_id (generate_vignette_id 1 [("b", some "2"), ("a", none)]) =
        ⟨1, generate_vignette_id 1 [("b", some "2"), ("a", none)],
          sortByKey [("b", some "2"), ("a", none)]⟩ :=
  ⟨vignette_id_canonical_roundtrip.1 1 _ _ (by decide) (List.Perm.swap _ _ _),
   (vignette_id_canonical_roundtrip.2 1 [("b", some "2"), ("a", none)] (by decide)).1⟩

/-! ### Vignette rendering lemmas -/

/-- Inside a space run whose replacement was already emitted, the next
output character is never a space. -/
theorem collapseSpacesAux_true_head (l : List Char) :
    (collapseSpacesAux true l).head? ≠ some ' ' := by
  induction l with
  | nil => simp [collapseSpacesAux]
  | cons c t ih =>
    rw [collapseSpacesAux]
    by_cases hc : c = ' '
    · simpa [hc] using ih
    · simp [hc]

/-- The output of the space-collapsing worker never has two adjacent
spaces. -/
theorem collapseSpacesAux_chain (l : List Char) (b : Bool) :
    List.Chain' (fun a c => ¬ (a = ' ' ∧ c = ' ')) (collapseSpacesAux b l) := by
  induction l generalizing b with
  | nil => simp [collapseSpacesAux]
  | cons c t ih =>
    rw [collapseSpacesAux]
    by_cases hc : c = ' '
    · rw [if_pos hc]
      cases b with
      | true => exact ih true
      | false =>
        rw [if_neg (by simp)]
        rw [List.chain'_cons']
        refine ⟨?_, ih true⟩
        intro y hy hcontra
        exact collapseSpacesAux_true_head t (hy ▸ congrArg some hcontra.2 ▸ rfl)
    · rw [if_neg hc]
      rw [List.chain'_cons']
      exact ⟨fun y _ hcontra => hc hcontra.1, ih false⟩

/-- **C9.** `generate_vignette` returns the empty string (not an error) when
the study has no stored template; with a template it returns the substituted
text stripped of leading/trailing whitespace with every interior run of
space characters collapsed to a single space — in particular the rendered
text never contains two adjacent spaces, and a substitution result of
`"  a   b  "` renders as `"a b"`. -/
theorem generate_vignette_rendering :
    (∀ (get_template : Int → Option PyTemplate) (v : Vignette)
        (factors : FactorTable) (vars : List (String × List Char)),
        buildVariables factors v.factor_levels = some vars →
        get_template v.study_id = none →
        generate_vignette get_template v factors = some "")
    ∧ (∀ (get_template : Int → Option PyTemplate) (v : Vignette)
        (factors : FactorTable) (vars : List (String × List Char))
        (tmpl : PyTemplate) (txt : List Char),
        buildVariables factors v.factor_levels = some vars →
        get_template v.study_id = some tmpl →
        substitute tmpl vars = some txt →
        generate_vignette get_template v factors =
          some (String.mk (collapseSpaces (pyStripChars txt)))
        ∧ List.Chain' (fun a c => ¬ (a = ' ' ∧ c = ' '))
            (collapseSpaces (pyStripChars txt)))
    ∧ collapseSpaces (pyStripChars ("  a   b  ".data)) = "a b".data := by
  refine ⟨?_, ?_, rfl⟩
  · intro get_template v factors vars hvars htmpl
    simp [generate_vignette, hvars, htmpl]
  · intro get_template v factors vars tmpl txt hvars htmpl hsub
    constructor
    · simp [generate_vignette, hvars, htmpl, hsub]
    · exact collapseSpacesAux_chain (pyStripChars txt) false

/-- Witness for `generate_vignette_rendering` at a concrete input. -/
theorem generate_vignette_rendering_witness :
    generate_vignette (fun _ => some [TemplateSeg.lit ("  a   b  ".data)])
        ⟨1, generate_vignette_id 1 [], []⟩ [] =
      some (String.mk (collapseSpaces (pyStripChars ("  a   b  ".data ++ []))))
    ∧ List.Chain' (fun a c => ¬ (a = ' ' ∧ c = ' '))
        (collapseSpaces (pyStripChars ("  a   b  ".data ++ []))) :=
  generate_vignette_rendering.2.1 (fun _ => some [TemplateSeg.lit ("  a   b  ".data)])
    ⟨1, generate_vignette_id 1 [], []⟩ [] [] [TemplateSeg.lit ("  a   b  ".data)]
    ("  a   b  ".data ++ []) rfl rfl rfl

/-! ### Vignette enumeration lemmas -/

/-- Summing a constant over a list. -/
theorem sum_map_const {α : Type} (l : List α) (n : Nat) :
    (l.map (fun _ => n)).sum = l.length * n := by
  induction l with
  | nil => simp
  | cons x t ih => simp [ih, Nat.succ_mul, Nat.add_comm]

/-- `itertools.product` enumerates as many tuples as the product of the
candidate-list sizes. -/
theorem pyProduct_length {α : Type} (ls : List (List α)) :
    (pyProduct ls).length = (ls.map List.length).prod := by
  induction ls with
  | nil => simp [pyProduct]
  | cons xs rest ih =>
    rw [pyProduct, List.length_flatMap]
    have hmap : List.map (List.length ∘ fun x => (pyProduct rest).map (fun combo => x :: combo)) xs
        = List.map (fun _ => (pyProduct rest).length) xs := by
      apply List.map_congr_left
      intro a _
      simp
    rw [hmap, sum_map_const, ih, List.map_cons, List.prod_cons]

/-- Membership in `pyProduct`: one choice from each candidate list. -/
theorem mem_pyProduct {α : Type} {ls : List (List α)} {c : List α} :
    c ∈ pyProduct ls ↔ List.Forall₂ (fun x xs => x ∈ xs) c ls := by
  induction ls generalizing c with
  | nil =>
    rw [pyProduct]
    simp [List.forall₂_nil_right_iff]
  | cons xs rest ih =>
    rw [pyProduct]
    simp only [List.mem_flatMap, List.mem_map]
    constructor
    · rintro ⟨x, hx, combo, hcombo, rfl⟩
      exact List.Forall₂.cons hx (ih.mp hcombo)
    · intro h
      cases h with
      | cons hx hrest => exact ⟨_, hx, _, ih.mpr hrest, rfl⟩

/-- `pyProduct` over duplicate-free candidate lists has no duplicates. -/
theorem pyProduct_nodup {α : Type} {ls : List (List α)}
    (h : ∀ xs ∈ ls, xs.Nodup) : (pyProduct ls).Nodup := by
  induction ls with
  | nil => simp [pyProduct]
  | cons xs rest ih =>
    rw [pyProduct, List.nodup_flatMap]
    constructor
    · intro x _
      exact (ih (fun l hl => h l (List.mem_cons_of_mem _ hl))).map
        (fun a b hab => by simpa using hab)
    · refine (h xs (List.mem_cons_self _ _)).imp_of_mem ?_
      intro a b _ _ hab
      intro c hc₁ hc₂
      obtain ⟨c₁, _, rfl⟩ := List.mem_map.mp hc₁
      obtain ⟨c₂, _, heads⟩ := List.mem_map.mp hc₂
      exact hab (List.head_eq_of_cons_eq heads.symm)

/-- Keys of the rendered pairs are the vignette ids, in order. -/
theorem renderAll_keys (get_template : Int → Option PyTemplate)
    (factors : FactorTable) :
    ∀ (l : List Vignette) (out : List (VignetteIdJson × String)),
      renderAll get_template factors l = some out →
      out.map Prod.fst = l.map Vignette.vignette_id := by
  intro l
  induction l with
  | nil =>
    intro out h
    rw [renderAll] at h
    cases h
    rfl
  | cons v t ih =>
    intro out h
    rw [renderAll] at h
    cases hg : generate_vignette get_template v factors with
    | none => rw [hg] at h; cases h
    | some text =>
      rw [hg] at h
      cases hr : renderAll get_template factors t with
      | none => rw [hr] at h; cases h
      | some out2 =>
        rw [hr] at h
        cases h
        simp [ih out2 hr]

/-- Folding Python dict inserts over fresh keys just appends. -/
theorem pyDictFold_eq_append {α β : Type} [DecidableEq α] (l : List (α × β)) :
    ∀ acc : List (α × β), ((acc ++ l).map Prod.fst).Nodup →
      l.foldl (fun d p => pyDictInsert d p.1 p.2) acc = acc ++ l := by
  induction l with
  | nil => intro acc _; simp
  | cons p t ih =>
    intro acc h
    rw [List.foldl_cons]
    have hfresh : ¬ (acc.any (fun q => q.1 = p.1) = true) := by
      rw [List.any_eq_true]
      rintro ⟨q, hq, hq2⟩
      simp only [decide_eq_true_eq] at hq2
      rw [List.map_append] at h
      rcases List.nodup_append.mp h with ⟨_, _, hdisj⟩
      refine hdisj (List.mem_map_of_mem Prod.fst hq) ?_
      rw [List.map_cons, hq2]
      exact List.mem_cons_self _ _
    have hins : pyDictInsert acc p.1 p.2 = acc ++ [p] := by
      unfold pyDictInsert
      rw [if_neg hfresh]
    rw [hins, ih (acc ++ [p]) (by simpa using h)]
    simp

/-- With duplicate-free keys the final dict lists exactly the input pairs. -/
theorem pyDictOfList_eq_self {α β : Type} [DecidableEq α] {l : List (α × β)}
    (h : (l.map Prod.fst).Nodup) : pyDictOfList l = l := by
  unfold pyDictOfList
  have := pyDictFold_eq_append l [] (by simpa using h)
  simpa using this

/-- `lookupKV` over an append checks the first list first. -/
theorem lookupKV_append {α : Type} (l₁ l₂ : List (String × α)) (k : String) :
    lookupKV (l₁ ++ l₂) k =
      match lookupKV l₁ k with
      | some v => some v
      | none => lookupKV l₂ k := by
  induction l₁ with
  | nil => simp [lookupKV]
  | cons p t ih =>
    rw [List.cons_append, lookupKV, lookupKV]
    by_cases hk : p.1 = k
    · rw [if_pos hk, if_pos hk]
    · rw [if_neg hk, if_neg hk, ih]

/-- Tuples drawn from per-factor candidate lists carry the factor names in
order. -/
theorem pyProduct_combo_keys {c : List (String × String)}
    {rem : List (String × List (String × String))}
    (h : List.Forall₂ (fun x xs => x ∈ xs)
      c (rem.map (fun p => p.2.map (fun lv => (p.1, lv.1))))) :
    c.map Prod.fst = rem.map Prod.fst := by
  induction rem generalizing c with
  | nil =>
    rw [List.map_nil, List.forall₂_nil_right_iff] at h
    rw [h]
    rfl
  | cons p t ih =>
    rw [List.map_cons] at h
    cases h with
    | cons hx hrest =>
      obtain ⟨lv, _, rfl⟩ := List.mem_map.mp hx
      simp [ih hrest]

/-- When every preset value is already null, blanking the presets is the
identity. -/
theorem blank_eq_presets {presets : List (String × Option String)}
    (h : ∀ q ∈ presets, q.2 = none) :
    presets.map (fun p => (p.1, (none : Option String))) = presets := by
  induction presets with
  | nil => rfl
  | cons p t ih =>
    rw [List.map_cons, ih (fun q hq => h q (List.mem_cons_of_mem _ hq))]
    have hp := h p (List.mem_cons_self _ _)
    cases p
    simp only at hp
    rw [hp]

/-- Core injectivity of the generated identifiers: two generated
assignments — a varying combination extended by either the blanked or the
given presets — with equal canonical identifiers agree on the combination
and on the variant. -/
theorem vignette_entry_inj {names : List String}
    {presets : List (String × Option String)}
    {c₁ c₂ : List (String × String)} {p₁ p₂ : List (String × Option String)}
    (hn : names.Nodup) (hpk : (presets.map Prod.fst).Nodup)
    (hdisj : ∀ k ∈ names, k ∉ presets.map Prod.fst)
    (hc₁ : c₁.map Prod.fst = names) (hc₂ : c₂.map Prod.fst = names)
    (hp₁ : p₁ = blankOf presets ∨ p₁ = presets)
    (hp₂ : p₂ = blankOf presets ∨ p₂ = presets)
    (heq : sortByKey (varsOf c₁ ++ p₁) = sortByKey (varsOf c₂ ++ p₂)) :
    c₁ = c₂ ∧ p₁ = p₂ := by
  have hv₁keys : (varsOf c₁).map Prod.fst = names := by
    rw [varsOf, List.map_map]
    exact hc₁
  have hv₂keys : (varsOf c₂).map Prod.fst = names := by
    rw [varsOf, List.map_map]
    exact hc₂
  have hblankKeys : (blankOf presets).map Prod.fst = presets.map Prod.fst := by
    rw [blankOf, List.map_map]
    rfl
  have hp₁keys : p₁.map Prod.fst = presets.map Prod.fst := by
    rcases hp₁ with rfl | rfl
    · exact hblankKeys
    · rfl
  have hp₂keys : p₂.map Prod.fst = presets.map Prod.fst := by
    rcases hp₂ with rfl | rfl
    · exact hblankKeys
    · rfl
  have hk₁ : ((varsOf c₁ ++ p₁).map Prod.fst).Nodup := by
    rw [List.map_append, hv₁keys, hp₁keys, List.nodup_append]
    exact ⟨hn, hpk, hdisj⟩
  have hk₂ : ((varsOf c₂ ++ p₂).map Prod.fst).Nodup := by
    rw [List.map_append, hv₂keys, hp₂keys, List.nodup_append]
    exact ⟨hn, hpk, hdisj⟩
  have hlook : ∀ k, lookupKV (varsOf c₁ ++ p₁) k = lookupKV (varsOf c₂ ++ p₂) k := by
    intro k
    calc lookupKV (varsOf c₁ ++ p₁) k
        = lookupKV (sortByKey (varsOf c₁ ++ p₁)) k :=
          lookupKV_eq_of_perm (sortByKey_perm _).symm hk₁ k
      _ = lookupKV (sortByKey (varsOf c₂ ++ p₂)) k := by rw [heq]
      _ = lookupKV (varsOf c₂ ++ p₂) k :=
          (lookupKV_eq_of_perm (sortByKey_perm _).symm hk₂ k).symm
  have hceq : varsOf c₁ = varsOf c₂ := by
    apply assoc_ext (hv₁keys.trans hv₂keys.symm) (by rw [hv₁keys]; exact hn)
    intro k
    by_cases hkn : k ∈ names
    · cases h₁ : lookupKV (varsOf c₁) k with
      | none =>
        exact absurd hkn (hv₁keys ▸ lookupKV_eq_none_iff.mp h₁)
      | some w₁ =>
        cases h₂ : lookupKV (varsOf c₂) k with
        | none =>
          exact absurd hkn (hv₂keys ▸ lookupKV_eq_none_iff.mp h₂)
        | some w₂ =>
          have a₁ : lookupKV (varsOf c₁ ++ p₁) k = some w₁ := by
            rw [lookupKV_append, h₁]
          have a₂ : lookupKV (varsOf c₂ ++ p₂) k = some w₂ := by
            rw [lookupKV_append, h₂]
          rw [← a₁, ← a₂]
          exact hlook k
    · have h₁ : lookupKV (varsOf c₁) k = none :=
        lookupKV_eq_none_iff.mpr (by rw [hv₁keys]; exact hkn)
      have h₂ : lookupKV (varsOf c₂) k = none :=
        lookupKV_eq_none_iff.mpr (by rw [hv₂keys]; exact hkn)
      rw [h₁, h₂]
  have hc : c₁ = c₂ := by
    have hinj : Function.Injective (fun q : String × String => (q.1, some q.2)) := by
      intro a b hab
      cases a
      cases b
      simp only [Prod.mk.injEq, Option.some.injEq] at hab
      rw [hab.1, hab.2]
    exact List.map_injective_iff.mpr hinj hceq
  refine ⟨hc, ?_⟩
  by_cases hex : ∃ q ∈ presets, q.2.isSome = true
  · obtain ⟨q, hq, hqs⟩ := hex
    obtain ⟨x, hx⟩ := Option.isSome_iff_exists.mp hqs
    have hkq : q.1 ∉ names := fun hmem =>
      hdisj q.1 hmem (List.mem_map_of_mem Prod.fst hq)
    have hnone₁ : lookupKV (varsOf c₁) q.1 = none :=
      lookupKV_eq_none_iff.mpr (by rw [hv₁keys]; exact hkq)
    have hnone₂ : lookupKV (varsOf c₂) q.1 = none :=
      lookupKV_eq_none_iff.mpr (by rw [hv₂keys]; exact hkq)
    have hpp : lookupKV p₁ q.1 = lookupKV p₂ q.1 := by
      have hsplit₁ : lookupKV (varsOf c₁ ++ p₁) q.1 = lookupKV p₁ q.1 := by
        rw [lookupKV_append, hnone₁]
      have hsplit₂ : lookupKV (varsOf c₂ ++ p₂) q.1 = lookupKV p₂ q.1 := by
        rw [lookupKV_append, hnone₂]
      rw [← hsplit₁, ← hsplit₂]
      exact hlook q.1
    have hblank : lookupKV (blankOf presets) q.1 = some none := by
      apply mem_lookupKV (by rw [hblankKeys]; exact hpk)
      exact List.mem_map.mpr ⟨q, hq, rfl⟩
    have hpres : lookupKV presets q.1 = some (some x) := by
      apply mem_lookupKV hpk
      cases q
      simp only at hx
      rw [← hx]
      exact hq
    rcases hp₁ with rfl | rfl <;> rcases hp₂ with rfl | rfl
    · rfl
    · rw [hblank, hpres] at hpp
      simp at hpp
    · rw [hpres, hblank] at hpp
      simp at hpp
    · rfl
  · have hall : ∀ q ∈ presets, q.2 = none := by
      intro q hq
      cases hqv : q.2 with
      | none => rfl
      | some x => exact absurd ⟨q, hq, by rw [hqv]; rfl⟩ hex
    have hbe : blankOf presets = presets := blank_eq_presets hall
    rcases hp₁ with rfl | rfl <;> rcases hp₂ with rfl | rfl
    · rfl
    · exact hbe
    · exact hbe.symm
    · rfl

/-- If blanking the presets changes nothing, every preset value was null. -/
theorem eq_of_blank_eq {presets : List (String × Option String)}
    (h : blankOf presets = presets) : ∀ q ∈ presets, q.2 = none := by
  induction presets with
  | nil => simp
  | cons p t ih =>
    rw [blankOf, List.map_cons] at h
    injection h with h1 h2
    intro q hq
    rcases List.mem_cons.mp hq with rfl | hq2
    · rw [← h1]
    · exact ih h2 q hq2

/-- The identifiers of the enumerated vignettes are pairwise distinct, so
the final dict keeps one entry per enumerated combination. -/
theorem vignetteEntries_ids_nodup (study_id : Int) (factors : FactorTable)
    (preset_factors : List (String × Option String))
    (hf : (factors.map Prod.fst).Nodup)
    (hl : ∀ p ∈ factors, (p.2.map Prod.fst).Nodup)
    (hp : (preset_factors.map Prod.fst).Nodup) :
    ((vignetteEntries study_id factors preset_factors).map Vignette.vignette_id).Nodup := by
  have hremk : ((factors.filter
      (fun p => ! preset_factors.any (fun q => q.1 = p.1))).map Prod.fst).Nodup :=
    hf.sublist ((List.filter_sublist factors).map Prod.fst)
  have hdisj : ∀ k ∈ (factors.filter
      (fun p => ! preset_factors.any (fun q => q.1 = p.1))).map Prod.fst,
      k ∉ preset_factors.map Prod.fst := by
    intro k hk hkp
    obtain ⟨p, hpmem, rfl⟩ := List.mem_map.mp hk
    have hpred := (List.mem_filter.mp hpmem).2
    rw [Bool.not_eq_true', List.any_eq_false] at hpred
    obtain ⟨q, hq, hq1⟩ := List.mem_map.mp hkp
    exact hpred q hq (by rw [hq1]; simp)
  have hidinj : ∀ {c₁ c₂ : List (String × String)}
      {p₁ p₂ : List (String × Option String)},
      c₁ ∈ pyProduct ((factors.filter
        (fun p => ! preset_factors.any (fun q => q.1 = p.1))).map
          (fun p => p.2.map (fun lv => (p.1, lv.1)))) →
      c₂ ∈ pyProduct ((factors.filter
        (fun p => ! preset_factors.any (fun q => q.1 = p.1))).map
          (fun p => p.2.map (fun lv => (p.1, lv.1)))) →
      (p₁ = blankOf preset_factors ∨ p₁ = preset_factors) →
      (p₂ = blankOf preset_factors ∨ p₂ = preset_factors) →
      generate_vignette_id study_id (varsOf c₁ ++ p₁) =
        generate_vignette_id study_id (varsOf c₂ ++ p₂) →
      c₁ = c₂ ∧ p₁ = p₂ := by
    intro c₁ c₂ p₁ p₂ hc₁ hc₂ hp₁ hp₂ hid
    have hsort : sortByKey (varsOf c₁ ++ p₁) = sortByKey (varsOf c₂ ++ p₂) :=
      congrArg VignetteIdJson.factor_levels hid
    exact vignette_entry_inj hremk hp hdisj
      (pyProduct_combo_keys (mem_pyProduct.mp hc₁))
      (pyProduct_combo_keys (mem_pyProduct.mp hc₂)) hp₁ hp₂ hsort
  simp only [vignetteEntries]
  rw [List.map_flatMap, List.nodup_flatMap]
  constructor
  · intro c hc
    by_cases heP : preset_factors.any (fun p => p.2.isSome) = true
    · rw [if_pos heP]
      simp only [List.singleton_append, List.map_cons, List.map_nil, List.nodup_cons,
        List.mem_cons, List.not_mem_nil, or_false, List.nodup_nil, and_true]
      refine ⟨?_, by simp⟩
      intro hideq
      have hvar := (hidinj hc hc (Or.inl rfl) (Or.inr rfl) hideq).2
      obtain ⟨q, hq, hqs⟩ := List.any_eq_true.mp heP
      rw [eq_of_blank_eq hvar q hq] at hqs
      simp at hqs
    · rw [if_neg heP]
      simp
  · refine List.Pairwise.imp_of_mem ?_ (pyProduct_nodup ?_)
    swap
    · intro xs hxs
      obtain ⟨p, hpmem, rfl⟩ := List.mem_map.mp hxs
      have h2 := hl p (List.mem_filter.mp hpmem).1
      have hxs2 : p.2.map (fun lv => (p.1, lv.1))
          = (p.2.map Prod.fst).map (fun k => (p.1, k)) := by
        rw [List.map_map]
        rfl
      rw [hxs2]
      exact List.Nodup.map (fun a b hab => by simpa using hab) h2
    · intro c₁ c₂ hc₁ hc₂ hne
      intro a ha₁ ha₂
      have hmem : ∀ {c : List (String × String)}, a ∈ List.map Vignette.vignette_id
          ((if preset_factors.any (fun p => p.2.isSome) = true then
              [Vignette.mk study_id
                (generate_vignette_id study_id
                  (c.map (fun q => (q.1, some q.2)) ++
                    preset_factors.map (fun p => (p.1, none))))
                (c.map (fun q => (q.1, some q.2)) ++
                  preset_factors.map (fun p => (p.1, none)))]
            else []) ++
            [Vignette.mk study_id
              (generate_vignette_id study_id
                (c.map (fun q => (q.1, some q.2)) ++ preset_factors))
              (c.map (fun q => (q.1, some q.2)) ++ preset_factors)]) →
          ∃ p, (p = blankOf preset_factors ∨ p = preset_factors)
            ∧ a = generate_vignette_id study_id (varsOf c ++ p) := by
        intro c hmem2
        rw [List.map_append] at hmem2
        rcases List.mem_append.mp hmem2 with hin | hin
        · by_cases heP : preset_factors.any (fun p => p.2.isSome) = true
          · rw [if_pos heP] at hin
            rw [List.map_singleton, List.mem_singleton] at hin
            exact ⟨blankOf preset_factors, Or.inl rfl, hin⟩
          · rw [if_neg heP] at hin
            simp at hin
        · rw [List.map_singleton, List.mem_singleton] at hin
          exact ⟨preset_factors, Or.inr rfl, hin⟩
      obtain ⟨q₁, hq₁, rfl⟩ := hmem ha₁
      obtain ⟨q₂, hq₂, haeq⟩ := hmem ha₂
      exact hne (hidinj hc₁ hc₂ hq₁ hq₂ haeq).1

/-- The length of a `flatMap` whose pieces all have the same length. -/
theorem sum_length_flatMap {α β : Type} (l : List α) (f : α → List β) (n : Nat)
    (h : ∀ a ∈ l, (f a).length = n) : (l.flatMap f).length = l.length * n := by
  rw [List.length_flatMap]
  rw [show l.map (List.length ∘ f) = l.map (fun _ => n) from
    List.map_congr_left (fun a ha => by simp [h a ha])]
  exact sum_map_const l n

/-- The enumeration size before deduplication: the product of the level
counts of the non-preset factors, doubled exactly when some preset factor
carries a concrete value. -/
theorem vignetteEntries_length (study_id : Int) (factors : FactorTable)
    (preset_factors : List (String × Option String)) :
    (vignetteEntries study_id factors preset_factors).length =
      ((factors.filter (fun p => ! preset_factors.any (fun q => q.1 = p.1))).map
        (fun p => p.2.length)).prod
      * (if preset_factors.any (fun p => p.2.isSome) = true then 2 else 1) := by
  have hcomps : (((factors.filter
        (fun p => ! preset_factors.any (fun q => q.1 = p.1))).map
          (fun p => p.2.map (fun lv => (p.1, lv.1)))).map List.length).prod
      = ((factors.filter (fun p => ! preset_factors.any (fun q => q.1 = p.1))).map
          (fun p => p.2.length)).prod := by
    rw [List.map_map]
    congr 1
    apply List.map_congr_left
    intro a _
    simp
  simp only [vignetteEntries]
  rw [sum_length_flatMap _ _
    (if preset_factors.any (fun p => p.2.isSome) = true then 2 else 1)
    (fun a _ => by
      by_cases heP : preset_factors.any (fun p => p.2.isSome) = true <;> simp [heP])]
  rw [pyProduct_length, hcomps]

/-- **C1 (amended).** Under the dict invariants (distinct factor names,
distinct level keys per factor, distinct preset names), a successful
`generate_vignettes` call returns one dict entry per enumerated combination
(the keys are exactly the enumerated identifiers), and the number of entries
is the product of the level counts of all non-preset factors, doubled once
when at least one preset factor holds a concrete (non-null) value —
regardless of how many preset factors do. -/
theorem generate_vignettes_count (get_template : Int → Option PyTemplate)
    (study_id : Int) (factors : FactorTable)
    (preset_factors : List (String × Option String))
    (shuffle : List Vignette → List Vignette)
    (result : List (VignetteIdJson × String))
    (hf : (factors.map Prod.fst).Nodup)
    (hl : ∀ p ∈ factors, (p.2.map Prod.fst).Nodup)
    (hp : (preset_factors.map Prod.fst).Nodup)
    (hshuffle : (shuffle (vignetteEntries study_id factors preset_factors)).Perm
      (vignetteEntries study_id factors preset_factors))
    (hres : generate_vignettes get_template study_id factors preset_factors shuffle
      = some result) :
    result.map Prod.fst =
      (shuffle (vignetteEntries study_id factors preset_factors)).map Vignette.vignette_id
    ∧ result.length =
      ((factors.filter (fun p => ! preset_factors.any (fun q => q.1 = p.1))).map
        (fun p => p.2.length)).prod
      * (if preset_factors.any (fun p => p.2.isSome) = true then 2 else 1) := by
  simp only [generate_vignettes] at hres
  cases hr : renderAll get_template factors
      (shuffle (vignetteEntries study_id factors preset_factors)) with
  | none => rw [hr] at hres; cases hres
  | some rendered =>
    rw [hr] at hres
    have hkeys := renderAll_keys get_template factors _ rendered hr
    have hidnodup : (rendered.map Prod.fst).Nodup := by
      rw [hkeys]
      exact (hshuffle.map Vignette.vignette_id).nodup_iff.mpr
        (vignetteEntries_ids_nodup study_id factors preset_factors hf hl hp)
    have hresult : result = rendered := by
      have h2 := Option.some.inj hres
      rw [← h2, pyDictOfList_eq_self hidnodup]
    subst hresult
    constructor
    · exact hkeys
    · have hlen : result.length =
          (shuffle (vignetteEntries study_id factors preset_factors)).length := by
        have h3 := congrArg List.length hkeys
        simpa using h3
      rw [hlen, hshuffle.length_eq, vignetteEntries_length]

/-- Witness for `generate_vignettes_count` at a concrete input. -/
theorem generate_vignettes_count_witness :
    ∃ result, generate_vignettes (fun _ => none) 1 witFactors witPresets id = some result
      ∧ result.map Prod.fst =
          (id (vignetteEntries 1 witFactors witPresets)).map Vignette.vignette_id
      ∧ result.length =
        ((witFactors.filter (fun p => ! witPresets.any (fun q => q.1 = p.1))).map
          (fun p => p.2.length)).prod
        * (if witPresets.any (fun p => p.2.isSome) = true then 2 else 1) :=
  ⟨_, rfl, generate_vignettes_count (fun _ => none) 1 witFactors witPresets id _
    (by decide) (by decide) (by decide) (List.Perm.refl _) rfl⟩

/-- **C1 (counterexample).** With one varying two-level factor and two
preset factors both holding concrete values, the code produces
`2 × 2 = 4` entries — one doubling in total — while the claimed
"doubled for each preset factor holding a non-null concrete value" predicts
`2 × 2 × 2 = 8`. -/
theorem generate_vignettes_double_per_preset_cex :
    (generate_vignettes (fun _ => none) 1 cexFactors cexPresets id).map List.length
      = some 4
    ∧ (4 : Nat) ≠ 2 * 2 * 2 :=
  ⟨rfl, by decide⟩

/-- Witness for `incomplete_config_propagates` at a concrete input. -/
theorem incomplete_config_propagates_witness :
    calculate_delivery_and_incentive [] = .ok none
    ∧ get_employee_incentive ⟨none, []⟩ "e1" = .ok (none, false) :=
  ⟨incomplete_config_propagates.1 [] ⟨[], [], none⟩ rfl (Or.inl rfl),
   incomplete_config_propagates.2 ⟨none, []⟩ "e1" rfl
    (incomplete_config_propagates.1 [] ⟨[], [], none⟩ rfl (Or.inl rfl))⟩

end Agatha
